import Mathlib

/-!
# A verification development for the deck-aligner core

This file gives a shallow embedding of the algorithmic core of the
deck-aligner repository and proves properties of it:

* `src/lib/cardDetector.ts` — contour filtering (`detectCards`) and the
  corner-ordering algorithm (`orderCorners`);
* `src/lib/cardExtractor.ts` — output-size selection of `extractCard`
  (orientation inference and the portrait/landscape swap);
* `src/lib/compositeGenerator.ts` — `calculateLayout` and the empty-input
  guard of `generateComposite`;
* `src/lib/cardManager.ts` — the `CardManager` collection state machine
  (selection, discarding, reorder, sort, snapshot history, undo/redo).

Numbers that are IEEE doubles in the source are modelled as exact
rationals (`ℚ`); the only real-valued operation the modelled core uses is
`Math.sqrt`/`Math.atan2`.  Edge lengths are modelled with `Real.sqrt`, and
the `atan2`-comparator used to sort corners is modelled by an exact key
that realises the same total preorder (see `angKey` below).  External
OpenCV primitives (contour extraction, the projective warp, blitting)
enter the model only through their data contracts: a contour is a record
of the attributes the core reads from it, and a produced `cv.Mat` is
modelled by its dimensions.
-/

namespace DeckAligner

/-! ## Points and the corner-ordering algorithm (`cardDetector.ts`) -/

/-- A 2-D point `{x, y}` with exact rational coordinates. -/
structure Point where
  x : ℚ
  y : ℚ
deriving DecidableEq, Repr

instance : Inhabited Point := ⟨⟨0, 0⟩⟩

/-- Centroid used by `orderCorners`: the code sums the four coordinates and
divides by the literal `4`. -/
def centroid (corners : List Point) : Point :=
  ⟨(corners.map Point.x).sum / 4, (corners.map Point.y).sum / 4⟩

/-- The vector from `c` to `p` (`point.x - centerX`, `point.y - centerY`). -/
def vsub (p c : Point) : Point :=
  ⟨p.x - c.x, p.y - c.y⟩

/-- Quadrant class of `Math.atan2 v.y v.x` over the range `(-π, π]`:
class 0 collects angles in `(-π, 0)` (i.e. `y < 0`), class 1 the angle `0`
(`y = 0, x ≥ 0`, which includes `atan2 0 0 = 0`), class 2 angles in
`(0, π)` (`y > 0`) and class 3 the angle `π` (`y = 0, x < 0`).  Classes are
strictly increasing in the angle. -/
def angClass (v : Point) : ℕ :=
  if v.y < 0 then 0
  else if v.y = 0 then (if 0 ≤ v.x then 1 else 3)
  else 2

/-- Within the open half-planes (classes 0 and 2) the angle is a strictly
increasing function of `-(x / y)`; on the axis classes the slope is
irrelevant and is set to `0`. -/
def angSlope (v : Point) : ℚ :=
  if v.y = 0 then 0 else -(v.x / v.y)

/-- Exact sort key realising the order of `Math.atan2 (p.y - c.y) (p.x - c.x)`:
two keys compare (lexicographically) exactly as the two `atan2` values do. -/
def angKey (c p : Point) : ℕ × ℚ :=
  (angClass (vsub p c), angSlope (vsub p c))

/-- Lexicographic `≤` on angle keys. -/
def keyLE (a b : ℕ × ℚ) : Prop :=
  a.1 < b.1 ∨ (a.1 = b.1 ∧ a.2 ≤ b.2)

/-- Lexicographic `<` on angle keys. -/
def keyLT (a b : ℕ × ℚ) : Prop :=
  a.1 < b.1 ∨ (a.1 = b.1 ∧ a.2 < b.2)

instance : DecidableRel keyLE := fun a b => by
  unfold keyLE; infer_instance

instance : DecidableRel keyLT := fun a b => by
  unfold keyLT; infer_instance

/-- The comparator `(a, b) => a.angle - b.angle` used by
`cornersWithAngle.sort`, as the induced total preorder on points. -/
def angleLE (c : Point) (p q : Point) : Prop :=
  keyLE (angKey c p) (angKey c q)

/-- Strict version of `angleLE`. -/
def angleLT (c : Point) (p q : Point) : Prop :=
  keyLT (angKey c p) (angKey c q)

instance (c : Point) : DecidableRel (angleLE c) := fun p q => by
  unfold angleLE; infer_instance

instance (c : Point) : DecidableRel (angleLT c) := fun p q => by
  unfold angleLT; infer_instance

/-- The scan for the corner with the smallest `x + y`: running minimum `m`,
index `best` of the first strict minimum so far, current index `i`. -/
def minSumGo : List Point → ℚ → ℕ → ℕ → ℕ
  | [], _, best, _ => best
  | p :: rest, m, best, i =>
      if p.x + p.y < m then minSumGo rest (p.x + p.y) i (i + 1)
      else minSumGo rest m best (i + 1)

/-- Index of the first corner attaining the minimal `x + y` (the code's
`minSumIdx` loop, starting from index `0` with the first corner's sum). -/
def minSumIdx : List Point → ℕ
  | [] => 0
  | p :: rest => minSumGo rest (p.x + p.y) 0 1

/-- Body of `orderCorners` once the length check has passed: compute the
centroid, sort by angle around it (`Array.prototype.sort` is stable, and a
stable sort under a total preorder is modelled exactly by
`List.insertionSort`), then rotate the cyclic order so the corner with the
smallest `x + y` comes first.  The code's explicit
`[cwa[k], cwa[(k+1) % 4], cwa[(k+2) % 4], cwa[(k+3) % 4]]` construction is
`List.rotate _ k` for a 4-element list with `k < 4`. -/
def orderCornersOk (corners : List Point) : List Point :=
  let c := centroid corners
  let sorted := corners.insertionSort (angleLE c)
  sorted.rotate (minSumIdx sorted)

/-- `orderCorners`: throws (`Except.error`) unless given exactly 4 points. -/
def orderCorners (corners : List Point) : Except String (List Point) :=
  if corners.length = 4 then Except.ok (orderCornersOk corners)
  else Except.error ("Expected exactly 4 corners")

instance (c : Point) : IsTotal Point (angleLE c) := by
  constructor
  intro p q
  unfold angleLE keyLE
  rcases Nat.lt_trichotomy (angKey c p).1 (angKey c q).1 with h | h | h
  · exact Or.inl (Or.inl h)
  · rcases le_total (angKey c p).2 (angKey c q).2 with h2 | h2
    · exact Or.inl (Or.inr ⟨h, h2⟩)
    · exact Or.inr (Or.inr ⟨h.symm, h2⟩)
  · exact Or.inr (Or.inl h)

instance (c : Point) : IsTrans Point (angleLE c) := by
  constructor
  intro a b d hab hbd
  unfold angleLE keyLE at *
  rcases hab with h1 | ⟨h1, h1'⟩ <;> rcases hbd with h2 | ⟨h2, h2'⟩
  · exact Or.inl (h1.trans h2)
  · exact Or.inl (h2 ▸ h1)
  · exact Or.inl (h1 ▸ h2)
  · exact Or.inr ⟨h1.trans h2, h1'.trans h2'⟩

instance (c : Point) : IsAntisymm Point (angleLT c) := by
  constructor
  intro a b hab hba
  exfalso
  unfold angleLT keyLT at *
  rcases hab with h1 | ⟨h1, h1'⟩ <;> rcases hba with h2 | ⟨h2, h2'⟩
  · omega
  · omega
  · omega
  · exact absurd h2' (not_lt.mpr h1'.le)

/-- Twice the signed area of the triangle `a b c`. -/
def cross3 (a b c : Point) : ℚ :=
  (b.x - a.x) * (c.y - a.y) - (b.y - a.y) * (c.x - a.x)

/-- No three of the points are collinear (the strongest reading of
"non-collinear points"). -/
def NoThreeCollinear (l : List Point) : Prop :=
  ∀ a ∈ l, ∀ b ∈ l, ∀ c ∈ l, a ≠ b → a ≠ c → b ≠ c → cross3 a b c ≠ 0

/-! ## The detector (`detectCards`) -/

/-- Post-merge detection parameters (the code spreads caller options over
`defaultCardDetectionOptions`; the record holds the merged values). -/
structure CardDetectionOptions where
  minAreaRatio : ℚ
  maxAreaRatio : ℚ
  minAspectRatio : ℚ
  maxAspectRatio : ℚ
  minSolidity : ℚ
deriving DecidableEq, Repr

/-- `defaultCardDetectionOptions` from `defaults.ts`. -/
def defaultCardDetectionOptions : CardDetectionOptions :=
  { minAreaRatio := 1/100
    maxAreaRatio := 1/2
    minAspectRatio := 6/5
    maxAspectRatio := 9/5
    minSolidity := 17/20 }

/-- A contour as the detector reads it: `cv.contourArea`, the axis-aligned
`cv.boundingRect` extents, the convex-hull area, and the four corners
derived from `cv.minAreaRect` (the derivation loop always emits 4). -/
structure Contour where
  area : ℚ
  bboxWidth : ℚ
  bboxHeight : ℚ
  hullArea : ℚ
  rectCorners : List Point
deriving DecidableEq, Repr

/-- A binary mask together with the external contours `cv.findContours`
reports on it. -/
structure BinaryImage where
  rows : ℕ
  cols : ℕ
  contours : List Contour
deriving DecidableEq, Repr

/-- A surviving detection. -/
structure DetectedCard where
  corners : List Point
  bboxWidth : ℚ
  bboxHeight : ℚ
  area : ℚ
  aspectRatio : ℚ
deriving DecidableEq, Repr

/-- Result of `detectCards`. -/
structure CardDetectionResult where
  cards : List DetectedCard
  totalContours : ℕ
  filteredCount : ℕ
deriving DecidableEq, Repr

/-- The filter chain of `detectCards` for a single contour: area within
`[minArea, maxArea]`, bounding-box `height / width` within the aspect
bounds, solidity `area / hullArea` at least `minSolidity`, and exactly 4
derived corners. -/
def contourPasses (imageArea : ℚ) (o : CardDetectionOptions) (c : Contour) : Bool :=
  let minArea := imageArea * o.minAreaRatio
  let maxArea := imageArea * o.maxAreaRatio
  let aspect := c.bboxHeight / c.bboxWidth
  let solidity := c.area / c.hullArea
  !(c.area < minArea || c.area > maxArea) &&
    !(aspect < o.minAspectRatio || aspect > o.maxAspectRatio) &&
    !(solidity < o.minSolidity) &&
    c.rectCorners.length == 4

/-- `detectCards`: silent multi-criterion filtering; rejections are skipped
(`continue`), never escalated. -/
def detectCards (binaryImage : BinaryImage) (o : CardDetectionOptions) :
    CardDetectionResult :=
  let imageArea : ℚ := (binaryImage.rows : ℚ) * (binaryImage.cols : ℚ)
  let survivors := binaryImage.contours.filter (contourPasses imageArea o)
  let detected := survivors.map fun c =>
    { corners := c.rectCorners
      bboxWidth := c.bboxWidth
      bboxHeight := c.bboxHeight
      area := c.area
      aspectRatio := c.bboxHeight / c.bboxWidth }
  { cards := detected
    totalContours := binaryImage.contours.length
    filteredCount := detected.length }

/-! ## The extractor (`extractCard`): output-size selection -/

/-- Extraction options (defaults from `defaults.ts`: 750 × 1050). -/
structure CardExtractionOptions where
  outputWidth : ℕ
  outputHeight : ℕ
deriving DecidableEq, Repr

/-- `cardExtractionOptions` from `defaults.ts`. -/
def cardExtractionOptions : CardExtractionOptions :=
  { outputWidth := 750, outputHeight := 1050 }

/-- A produced `cv.Mat`, modelled by its dimensions (`warpPerspective`
writes an image of exactly the requested `dsize`). -/
structure MatSize where
  rows : ℕ
  cols : ℕ
deriving DecidableEq, Repr

/-- Euclidean edge length `Math.sqrt ((x₁ - x₀)² + (y₁ - y₀)²)`. -/
noncomputable def edgeLen (p q : Point) : ℝ :=
  Real.sqrt (((q.x - p.x : ℚ) : ℝ) ^ 2 + ((q.y - p.y : ℚ) : ℝ) ^ 2)

/-- The `i`-th ordered corner of a quadrilateral. -/
def orderedCorner (corners : List Point) (i : ℕ) : Point :=
  (orderCornersOk corners).getD i default

/-- Estimated card width: mean of the top and bottom edge lengths of the
ordered quadrilateral. -/
noncomputable def estCardWidth (corners : List Point) : ℝ :=
  (edgeLen (orderedCorner corners 0) (orderedCorner corners 1) +
     edgeLen (orderedCorner corners 3) (orderedCorner corners 2)) / 2

/-- Estimated card height: mean of the left and right edge lengths. -/
noncomputable def estCardHeight (corners : List Point) : ℝ :=
  (edgeLen (orderedCorner corners 0) (orderedCorner corners 3) +
     edgeLen (orderedCorner corners 1) (orderedCorner corners 2)) / 2

open Classical in
/-- Output-size selection of `extractCard`: portrait (`cardHeight >
cardWidth`) keeps the configured `outputWidth × outputHeight`; otherwise
the two are swapped.  The warped `cv.Mat` has `dsize` =
`finalOutputWidth × finalOutputHeight`, i.e. `cols = width`, `rows =
height`. -/
noncomputable def extractCard (corners : List Point)
    (options : CardExtractionOptions) : MatSize :=
  if estCardWidth corners < estCardHeight corners then
    { rows := options.outputHeight, cols := options.outputWidth }
  else
    { rows := options.outputWidth, cols := options.outputHeight }

/-! ## The composite layout engine (`compositeGenerator.ts`) -/

/-- Dimensions of a card's rectified image (`card.image.rows/cols`). -/
structure CardImage where
  rows : ℕ
  cols : ℕ
deriving DecidableEq, Repr

/-- The fields of a `ManagedCard` that the composite generator reads. -/
structure CompCard where
  globalId : String
  image : CardImage
deriving DecidableEq, Repr

instance : Inhabited CompCard := ⟨⟨"", ⟨0, 0⟩⟩⟩

/-- `scaleMode` of the composite options. -/
inductive ScaleMode where
  | fit
  | original
deriving DecidableEq, Repr

/-- Post-merge composite options.  `maxCardWidth`/`maxCardHeight` are used
only when truthy, so the value `0` models both `0` and absence. -/
structure CompositeOptions where
  cardsPerRow : ℕ
  spacing : ℚ
  backgroundColor : String
  scaleMode : ScaleMode
  maxCardWidth : ℕ
  maxCardHeight : ℕ
deriving DecidableEq, Repr

/-- `Math.round`: round half toward positive infinity. -/
def jsRound (q : ℚ) : ℤ :=
  ⌊q + 1 / 2⌋

/-- A card's placement in the composite grid. -/
structure CardPosition where
  cardId : String
  x : ℚ
  y : ℚ
  width : ℤ
  height : ℤ
  row : ℕ
  col : ℕ
deriving DecidableEq, Repr

instance : Inhabited CardPosition := ⟨⟨"", 0, 0, 0, 0, 0, 0⟩⟩

/-- Layout metadata returned by `calculateLayout`. -/
structure LayoutInfo where
  totalWidth : ℚ
  totalHeight : ℚ
  rows : ℕ
  cols : ℕ
  cardPositions : List CardPosition
deriving DecidableEq, Repr

/-- Uniform cell size: in `fit` mode (with truthy max dimensions) the
largest native width/height scaled by `min(scaleX, scaleY, 1)` and
rounded; otherwise the first card's native size. -/
def cellSize (cards : List CompCard) (o : CompositeOptions) : ℤ × ℤ :=
  if o.scaleMode = ScaleMode.fit ∧ o.maxCardWidth ≠ 0 ∧ o.maxCardHeight ≠ 0 then
    let maxOriginalWidth : ℚ := (cards.map fun c => (c.image.cols : ℚ)).foldr max 0
    let maxOriginalHeight : ℚ := (cards.map fun c => (c.image.rows : ℚ)).foldr max 0
    let scale : ℚ :=
      min ((o.maxCardWidth : ℚ) / maxOriginalWidth)
        (min ((o.maxCardHeight : ℚ) / maxOriginalHeight) 1)
    (jsRound (maxOriginalWidth * scale), jsRound (maxOriginalHeight * scale))
  else
    ((cards.headI.image.cols : ℤ), (cards.headI.image.rows : ℤ))

/-- Per-card letterboxed size in `fit` mode (aspect-preserving shrink into
the uniform cell); in `original` mode the cell size itself. -/
def fittedSize (cw ch : ℤ) (o : CompositeOptions) (card : CompCard) : ℤ × ℤ :=
  if o.scaleMode = ScaleMode.fit then
    let aspect : ℚ := (card.image.rows : ℚ) / (card.image.cols : ℚ)
    let target : ℚ := (ch : ℚ) / (cw : ℚ)
    if target < aspect then (jsRound ((ch : ℚ) / aspect), ch)
    else (cw, jsRound ((cw : ℚ) * aspect))
  else (cw, ch)

/-- `calculateLayout`: grid dimensions, sheet size, and row-major card
positions in input order. -/
def calculateLayout (cards : List CompCard) (o : CompositeOptions) : LayoutInfo :=
  let cw := (cellSize cards o).1
  let ch := (cellSize cards o).2
  let cols := min o.cardsPerRow cards.length
  let rows := (⌈(cards.length : ℚ) / (cols : ℚ)⌉).toNat
  let totalWidth : ℚ := (cols : ℚ) * (cw : ℚ) + ((cols : ℚ) + 1) * o.spacing
  let totalHeight : ℚ := (rows : ℚ) * (ch : ℚ) + ((rows : ℚ) + 1) * o.spacing
  let cardPositions := cards.enum.map fun ic =>
    let i := ic.1
    let card := ic.2
    let row := i / cols
    let col := i % cols
    let wh := fittedSize cw ch o card
    { cardId := card.globalId
      x := o.spacing + (col : ℚ) * ((cw : ℚ) + o.spacing)
      y := o.spacing + (row : ℚ) * ((ch : ℚ) + o.spacing)
      width := wh.1
      height := wh.2
      row := row
      col := col }
  { totalWidth := totalWidth
    totalHeight := totalHeight
    rows := rows
    cols := cols
    cardPositions := cardPositions }

/-- Result of `generateComposite`: the sheet canvas (modelled by its size
and background colour; the per-card blitting happens through external
`cv.Mat` primitives) together with the layout metadata. -/
structure CompositeResult where
  canvasWidth : ℚ
  canvasHeight : ℚ
  background : String
  layout : LayoutInfo
deriving DecidableEq, Repr

/-- `generateComposite`: throws (`Except.error`) on an empty card list,
otherwise lays the cards out on a background-filled canvas. -/
def generateComposite (cards : List CompCard) (o : CompositeOptions) :
    Except String CompositeResult :=
  if cards.length = 0 then Except.error ("No cards to composite")
  else
    let layout := calculateLayout cards o
    Except.ok
      { canvasWidth := layout.totalWidth
        canvasHeight := layout.totalHeight
        background := o.backgroundColor
        layout := layout }

/-! ## The collection manager (`cardManager.ts`) -/

/-- The data of an `ExtractedCard` that survives into a `ManagedCard`
(`image` is modelled by its dimensions, which `sortCards` reads). -/
structure ExtractedCardData where
  imageRows : ℕ
  imageCols : ℕ
  cardNumber : ℕ
deriving DecidableEq, Repr

/-- A processed source image handed to `loadFromImages`. -/
structure ProcessedImage where
  id : String
  fileName : String
  extractedCards : List ExtractedCardData
deriving DecidableEq, Repr

/-- A `ManagedCard`. -/
structure ManagedCard where
  globalId : String
  sourceImageId : String
  sourceImageName : String
  isSelected : Bool
  isDiscarded : Bool
  customPosition : ℕ
  imageRows : ℕ
  imageCols : ℕ
  cardNumber : ℕ
deriving DecidableEq, Repr

instance : Inhabited ManagedCard := ⟨⟨"", "", "", false, false, 0, 0, 0, 0⟩⟩

/-- A history entry (`CardCollectionState`): a deep copy of the cards plus
copies of the two id sets.  A JS `Set` keeps insertion order, so it is
modelled as a duplicate-free list. -/
structure CardCollectionState where
  cards : List ManagedCard
  selectedIds : List String
  discardedIds : List String
deriving DecidableEq, Repr

instance : Inhabited CardCollectionState := ⟨⟨[], [], []⟩⟩

/-- The `CardManager`'s private state. -/
structure CardManager where
  cards : List ManagedCard
  selectedIds : List String
  discardedIds : List String
  history : List CardCollectionState
  historyIndex : ℤ
deriving DecidableEq, Repr

/-- A freshly constructed `CardManager`. -/
def CardManager.init : CardManager :=
  { cards := [], selectedIds := [], discardedIds := [], history := [], historyIndex := -1 }

/-- `Set.add`: append unless already present (JS sets keep insertion order). -/
def setAdd (s : List String) (id : String) : List String :=
  if id ∈ s then s else s ++ [id]

/-- `String(n).padStart(2, "0")`. -/
def pad2 (n : ℕ) : String :=
  let s := toString n
  if s.length < 2 then "0" ++ s else s

/-- The `ManagedCard` built for `card` at index `cardIndex` of `image`,
with running position `pos`. -/
def buildManagedCard (image : ProcessedImage) (cardIndex : ℕ)
    (card : ExtractedCardData) (pos : ℕ) : ManagedCard :=
  { globalId := image.id ++ "_card_" ++ pad2 (cardIndex + 1)
    sourceImageId := image.id
    sourceImageName := image.fileName
    isSelected := false
    isDiscarded := false
    customPosition := pos
    imageRows := card.imageRows
    imageCols := card.imageCols
    cardNumber := card.cardNumber }

/-- All managed cards of a batch, with the `position` counter running
across images. -/
def loadedCards (images : List ProcessedImage) : List ManagedCard :=
  let tagged := images.flatMap fun image =>
    image.extractedCards.enum.map fun ic => (image, ic.1, ic.2)
  tagged.enum.map fun pt => buildManagedCard pt.2.1 pt.2.2.1 pt.2.2.2 pt.1

/-- `saveState`: drop any redo tail, push a deep copy of the live state,
advance the cursor, and evict the oldest entry past 50 (decrementing the
cursor accordingly). -/
def CardManager.saveState (m : CardManager) : CardManager :=
  let hist0 :=
    if m.historyIndex < (m.history.length : ℤ) - 1 then
      m.history.take (m.historyIndex + 1).toNat
    else m.history
  let hist1 := hist0 ++ [⟨m.cards, m.selectedIds, m.discardedIds⟩]
  let idx1 := m.historyIndex + 1
  if hist1.length > 50 then
    { m with history := hist1.tail, historyIndex := idx1 - 1 }
  else
    { m with history := hist1, historyIndex := idx1 }

/-- `loadFromImages`: rebuild the card list from the batch (ids, flags and
positions fresh; the id sets and history are untouched) and save the
initial state. -/
def CardManager.loadFromImages (m : CardManager) (images : List ProcessedImage) :
    CardManager :=
  CardManager.saveState { m with cards := loadedCards images }

/-- `getCards`: all cards, or only the non-discarded ones. -/
def CardManager.getCards (m : CardManager) (includeDiscarded : Bool) :
    List ManagedCard :=
  if includeDiscarded then m.cards else m.cards.filter fun c => !c.isDiscarded

/-- Mutate the first card matching `p` (the `this.cards.find(...)` target;
the found object is updated in place, so only the first match changes). -/
def updateFirst (p : ManagedCard → Bool) (f : ManagedCard → ManagedCard) :
    List ManagedCard → List ManagedCard
  | [] => []
  | c :: rest => if p c then f c :: rest else c :: updateFirst p f rest

/-- One iteration of the `selectCards` loop. -/
def CardManager.selectOne (m : CardManager) (id : String) : CardManager :=
  match m.cards.find? fun c => c.globalId == id with
  | none => m
  | some c =>
      if c.isDiscarded then m
      else
        { m with
            cards := updateFirst (fun c => c.globalId == id)
              (fun c => { c with isSelected := true }) m.cards
            selectedIds := setAdd m.selectedIds id }

/-- One iteration of the `deselectCards` loop. -/
def CardManager.deselectOne (m : CardManager) (id : String) : CardManager :=
  match m.cards.find? fun c => c.globalId == id with
  | none => m
  | some _ =>
      { m with
          cards := updateFirst (fun c => c.globalId == id)
            (fun c => { c with isSelected := false }) m.cards
          selectedIds := m.selectedIds.erase id }

/-- One iteration of the `discardCards` loop: discarding also clears the
selection flag and set membership. -/
def CardManager.discardOne (m : CardManager) (id : String) : CardManager :=
  match m.cards.find? fun c => c.globalId == id with
  | none => m
  | some _ =>
      { m with
          cards := updateFirst (fun c => c.globalId == id)
            (fun c => { c with isDiscarded := true, isSelected := false }) m.cards
          discardedIds := setAdd m.discardedIds id
          selectedIds := m.selectedIds.erase id }

/-- One iteration of the `restoreCards` loop: restoring never re-selects. -/
def CardManager.restoreOne (m : CardManager) (id : String) : CardManager :=
  match m.cards.find? fun c => c.globalId == id with
  | none => m
  | some _ =>
      { m with
          cards := updateFirst (fun c => c.globalId == id)
            (fun c => { c with isDiscarded := false }) m.cards
          discardedIds := m.discardedIds.erase id }

/-- `selectCards`. -/
def CardManager.selectCards (m : CardManager) (cardIds : List String) : CardManager :=
  CardManager.saveState (cardIds.foldl CardManager.selectOne m)

/-- `deselectCards`. -/
def CardManager.deselectCards (m : CardManager) (cardIds : List String) : CardManager :=
  CardManager.saveState (cardIds.foldl CardManager.deselectOne m)

/-- `discardCards`. -/
def CardManager.discardCards (m : CardManager) (cardIds : List String) : CardManager :=
  CardManager.saveState (cardIds.foldl CardManager.discardOne m)

/-- `restoreCards`. -/
def CardManager.restoreCards (m : CardManager) (cardIds : List String) : CardManager :=
  CardManager.saveState (cardIds.foldl CardManager.restoreOne m)

/-- `selectAll`: select every non-discarded card. -/
def CardManager.selectAll (m : CardManager) : CardManager :=
  CardManager.saveState
    { m with
        cards := m.cards.map fun c =>
          if c.isDiscarded then c else { c with isSelected := true }
        selectedIds := m.cards.foldl
          (fun s c => if c.isDiscarded then s else setAdd s c.globalId)
          m.selectedIds }

/-- `deselectAll`. -/
def CardManager.deselectAll (m : CardManager) : CardManager :=
  CardManager.saveState
    { m with
        cards := m.cards.map fun c => { c with isSelected := false }
        selectedIds := [] }

/-- Rewrite `customPosition` of the cards whose index (into `m.cards`)
occurs in `order` to their rank in `order`; the `activeCards.forEach`
updates the shared card objects, so this is indexed by object identity. -/
def repositionByOrder (cards : List ManagedCard) (order : List ℕ) :
    List ManagedCard :=
  cards.mapIdx fun j c =>
    if j ∈ order then { c with customPosition := order.indexOf j } else c

/-- The indices (into `m.cards`) of the active, non-discarded cards, in
order — the object identities of `this.getCards(false)`. -/
def CardManager.activeIdxs (m : CardManager) : List ℕ :=
  (List.range m.cards.length).filter fun i => !(m.cards.getD i default).isDiscarded

/-- `reorderCards`: the splice move is performed on the *filtered copy*
returned by `getCards(false)` — `this.cards` itself is never re-ordered —
and then `customPosition` of each shared card object is set to its index
in the moved copy.  (`splice(toIndex, 0, card)` clamps `toIndex` to the
array length.)  On an out-of-range `fromIndex` the code would splice in
`undefined` and crash; the model leaves the order unchanged there. -/
def CardManager.reorderCards (m : CardManager) (fromIndex toIndex : ℕ) : CardManager :=
  let active := m.activeIdxs
  let moved :=
    if h : fromIndex < active.length then
      let card := active.get ⟨fromIndex, h⟩
      let rest := active.eraseIdx fromIndex
      rest.insertIdx (min toIndex rest.length) card
    else active
  CardManager.saveState { m with cards := repositionByOrder m.cards moved }

/-- The four `sortCards` criteria. -/
inductive SortCriteria where
  | position
  | source
  | size
  | aspectRatio
deriving DecidableEq, Repr

/-- The comparator of `sortCards` for `criteria`, as a total preorder on
cards (`localeCompare` on the default locale is modelled by lexicographic
string order; the numeric comparators compare the exact values). -/
def sortLE (criteria : SortCriteria) (a b : ManagedCard) : Prop :=
  match criteria with
  | SortCriteria.position => a.customPosition ≤ b.customPosition
  | SortCriteria.source => a.sourceImageId ≤ b.sourceImageId
  | SortCriteria.size => a.imageCols * a.imageRows ≤ b.imageCols * b.imageRows
  | SortCriteria.aspectRatio =>
      (a.imageRows : ℚ) / (a.imageCols : ℚ) ≤ (b.imageRows : ℚ) / (b.imageCols : ℚ)

instance (criteria : SortCriteria) : DecidableRel (sortLE criteria) := fun a b => by
  cases criteria <;> (unfold sortLE; infer_instance)

/-- `sortCards`: like `reorderCards`, the sort runs on the filtered copy
(`this.cards` keeps its order); only `customPosition` of the shared card
objects is rewritten with the sorted ranks.  The stable JS sort is
modelled by `List.insertionSort` over the active indices. -/
def CardManager.sortCards (m : CardManager) (criteria : SortCriteria) : CardManager :=
  let sorted := m.activeIdxs.insertionSort fun i j =>
    sortLE criteria (m.cards.getD i default) (m.cards.getD j default)
  CardManager.saveState { m with cards := repositionByOrder m.cards sorted }

/-- `restoreState`: replace the live collection with a (copied) snapshot. -/
def CardManager.restoreState (m : CardManager) (s : CardCollectionState) : CardManager :=
  { m with cards := s.cards, selectedIds := s.selectedIds, discardedIds := s.discardedIds }

/-- `undo`: move the cursor back and restore that snapshot; a no-op
returning `false` at the oldest snapshot. -/
def CardManager.undo (m : CardManager) : Bool × CardManager :=
  if 0 < m.historyIndex then
    let idx := m.historyIndex - 1
    (true, CardManager.restoreState { m with historyIndex := idx }
      (m.history.getD idx.toNat default))
  else (false, m)

/-- `redo`: move the cursor forward and restore that snapshot; a no-op
returning `false` at the newest snapshot. -/
def CardManager.redo (m : CardManager) : Bool × CardManager :=
  if m.historyIndex < (m.history.length : ℤ) - 1 then
    let idx := m.historyIndex + 1
    (true, CardManager.restoreState { m with historyIndex := idx }
      (m.history.getD idx.toNat default))
  else (false, m)

/-- The state-mutating operations of the manager (each one ends in a
`saveState`, pushing one history snapshot). -/
inductive MutOp where
  | select (cardIds : List String)
  | deselect (cardIds : List String)
  | selectAllOp
  | deselectAllOp
  | discard (cardIds : List String)
  | restore (cardIds : List String)
  | reorder (fromIndex toIndex : ℕ)
  | sortBy (criteria : SortCriteria)
deriving DecidableEq, Repr

/-- Apply one mutating operation. -/
def applyMutOp (m : CardManager) (op : MutOp) : CardManager :=
  match op with
  | MutOp.select ids => m.selectCards ids
  | MutOp.deselect ids => m.deselectCards ids
  | MutOp.selectAllOp => m.selectAll
  | MutOp.deselectAllOp => m.deselectAll
  | MutOp.discard ids => m.discardCards ids
  | MutOp.restore ids => m.restoreCards ids
  | MutOp.reorder i j => m.reorderCards i j
  | MutOp.sortBy c => m.sortCards c

/-- Any user operation: a mutation, or an undo/redo step. -/
inductive UserOp where
  | mutate (op : MutOp)
  | undoOp
  | redoOp
deriving DecidableEq, Repr

/-- Apply one user operation (discarding the `Bool` result of undo/redo). -/
def applyUserOp (m : CardManager) (op : UserOp) : CardManager :=
  match op with
  | UserOp.mutate op => applyMutOp m op
  | UserOp.undoOp => (m.undo).2
  | UserOp.redoOp => (m.redo).2

/-- Apply a sequence of mutating operations. -/
def applyMutOps (m : CardManager) (ops : List MutOp) : CardManager :=
  ops.foldl applyMutOp m

/-- Apply a sequence of user operations. -/
def applyUserOps (m : CardManager) (ops : List UserOp) : CardManager :=
  ops.foldl applyUserOp m

/-- The number of times `undo()` returns `true` before first returning
`false`, computed with enough fuel for any reachable state. -/
def undoCountFuel : ℕ → CardManager → ℕ
  | 0, _ => 0
  | fuel + 1, m =>
      if 0 < m.historyIndex then undoCountFuel fuel (m.undo).2 + 1 else 0

/-- Addressable undo steps of a manager state. -/
def undoCount (m : CardManager) : ℕ :=
  undoCountFuel m.history.length m

/-- The two curation flags of a card. -/
def flagsOf (c : ManagedCard) : Bool × Bool :=
  (c.isSelected, c.isDiscarded)

/-- No card in the list is simultaneously selected and discarded. -/
def FlagsOK (cards : List ManagedCard) : Prop :=
  ∀ c ∈ cards, c.isSelected = true → c.isDiscarded = false

/-- The flag invariant for a full manager state: it holds of the live
cards and of every history snapshot. -/
def HistFlagsOK (m : CardManager) : Prop :=
  FlagsOK m.cards ∧ ∀ s ∈ m.history, FlagsOK s.cards

/-- The manager's global-id invariant relative to the id list `L` fixed at
load time: the live cards and every snapshot carry exactly the ids `L`,
and the history cursor is in bounds. -/
def GIdsOK (L : List String) (m : CardManager) : Prop :=
  m.cards.map (fun c => c.globalId) = L ∧
    (∀ s ∈ m.history, s.cards.map (fun c => c.globalId) = L) ∧
    0 ≤ m.historyIndex ∧ m.historyIndex < (m.history.length : ℤ)

/-- What a mutating operation's body does before its final `saveState`:
it leaves the history and cursor alone, never renames a card, and
preserves the flag invariant of the live cards. -/
def CoreStep (m mc : CardManager) : Prop :=
  mc.history = m.history ∧ mc.historyIndex = m.historyIndex ∧
    mc.cards.map (fun c => c.globalId) = m.cards.map (fun c => c.globalId) ∧
    (FlagsOK m.cards → FlagsOK mc.cards)

/-! ## Theorems -/

/-- **C9.** Calling the corner-ordering operation with other than 4 points,
and calling composite generation with an empty card list, each report a
typed failure (`Except.error`, the model of `throw new Error`) rather than
silently returning a result. -/
theorem orderCorners_generateComposite_typed_failure (cs : List Point)
    (hcs : cs.length ≠ 4) (cards : List CompCard) (hcards : cards = [])
    (o : CompositeOptions) :
    (∃ e, orderCorners cs = Except.error e) ∧
      ∃ e, generateComposite cards o = Except.error e := by
  refine ⟨⟨"Expected exactly 4 corners", ?_⟩, ⟨"No cards to composite", ?_⟩⟩
  · unfold orderCorners
    rw [if_neg hcs]
  · subst hcards
    rfl

/-- Witness for **C9** at `cs = [(0, 0)]` and `cards = []`. -/
theorem orderCorners_generateComposite_typed_failure_witness :
    ([(⟨0, 0⟩ : Point)].length ≠ 4 ∧ ([] : List CompCard) = []) ∧
      ((∃ e, orderCorners [(⟨0, 0⟩ : Point)] = Except.error e) ∧
        ∃ e, generateComposite []
          ⟨5, 10, "white", ScaleMode.fit, 300, 420⟩ = Except.error e) :=
  ⟨⟨by decide, rfl⟩,
    orderCorners_generateComposite_typed_failure [⟨0, 0⟩] (by decide) [] rfl
      ⟨5, 10, "white", ScaleMode.fit, 300, 420⟩⟩

/-- **C5.** With `minAreaRatio > maxAreaRatio` every contour fails the area
filter, so detection returns zero cards for any input and does not raise an
error (the hypothesis on the mask dimensions records that a mask either has
positive pixel area or carries no contours at all). -/
theorem detectCards_vacuous_rejection (img : BinaryImage)
    (o : CardDetectionOptions) (hrange : o.maxAreaRatio < o.minAreaRatio)
    (hdim : (0 < img.rows ∧ 0 < img.cols) ∨ img.contours = []) :
    (detectCards img o).cards = [] := by
  have hfilter :
      img.contours.filter
        (contourPasses ((img.rows : ℚ) * (img.cols : ℚ)) o) = [] := by
    rcases hdim with ⟨hr, hc⟩ | hnone
    · rw [List.filter_eq_nil_iff]
      intro c _ hpass
      have hA : (0 : ℚ) < (img.rows : ℚ) * (img.cols : ℚ) := by
        have h1 : (0 : ℚ) < (img.rows : ℚ) := by exact_mod_cast hr
        have h2 : (0 : ℚ) < (img.cols : ℚ) := by exact_mod_cast hc
        exact mul_pos h1 h2
      have hlt :
          ((img.rows : ℚ) * (img.cols : ℚ)) * o.maxAreaRatio <
            ((img.rows : ℚ) * (img.cols : ℚ)) * o.minAreaRatio :=
        mul_lt_mul_of_pos_left hrange hA
      simp only [contourPasses, Bool.and_eq_true, Bool.not_eq_true',
        Bool.or_eq_false_iff, decide_eq_false_iff_not, not_lt] at hpass
      have h1 := hpass.1.1.1
      have h2 := hpass.1.1.2
      linarith
    · rw [hnone]
      rfl
  simp only [detectCards, hfilter, List.map_nil]

/-- Witness for **C5**: a 10 × 10 mask holding one contour, with
`minAreaRatio = 2 > 1 = maxAreaRatio`. -/
theorem detectCards_vacuous_rejection_witness :
    ((1 : ℚ) < 2 ∧
        ((0 < (10 : ℕ) ∧ 0 < (10 : ℕ)) ∨
          ([⟨50, 5, 7, 50, [⟨0, 0⟩, ⟨1, 0⟩, ⟨1, 1⟩, ⟨0, 1⟩]⟩] : List Contour) = [])) ∧
      (detectCards ⟨10, 10, [⟨50, 5, 7, 50, [⟨0, 0⟩, ⟨1, 0⟩, ⟨1, 1⟩, ⟨0, 1⟩]⟩]⟩
          ⟨2, 1, 6/5, 9/5, 17/20⟩).cards = [] :=
  ⟨⟨by norm_num, Or.inl ⟨by decide, by decide⟩⟩,
    detectCards_vacuous_rejection
      ⟨10, 10, [⟨50, 5, 7, 50, [⟨0, 0⟩, ⟨1, 0⟩, ⟨1, 1⟩, ⟨0, 1⟩]⟩]⟩
      ⟨2, 1, 6/5, 9/5, 17/20⟩ (by norm_num) (Or.inl ⟨by decide, by decide⟩)⟩

/-- **C7.** `undo()` at the oldest snapshot and `redo()` at the newest
snapshot return `false` and leave the whole manager state (cards, id sets,
history, cursor) unchanged. -/
theorem undo_redo_noop_at_boundary (m : CardManager) :
    (m.historyIndex = 0 → m.undo = (false, m)) ∧
      (m.historyIndex = (m.history.length : ℤ) - 1 → m.redo = (false, m)) := by
  constructor
  · intro h
    unfold CardManager.undo
    rw [if_neg]
    omega
  · intro h
    unfold CardManager.redo
    rw [if_neg]
    omega

/-- Witness for **C7**: a freshly loaded manager sits at snapshot 0 of 1,
which is both the oldest and the newest snapshot. -/
theorem undo_redo_noop_at_boundary_witness :
    ((CardManager.init.loadFromImages []).historyIndex = 0 ∧
        (CardManager.init.loadFromImages []).historyIndex =
          (((CardManager.init.loadFromImages []).history.length : ℤ) - 1)) ∧
      (CardManager.init.loadFromImages []).undo =
          (false, CardManager.init.loadFromImages []) ∧
        (CardManager.init.loadFromImages []).redo =
          (false, CardManager.init.loadFromImages []) :=
  ⟨⟨by decide, by decide⟩,
    (undo_redo_noop_at_boundary (CardManager.init.loadFromImages [])).1 (by decide),
    (undo_redo_noop_at_boundary (CardManager.init.loadFromImages [])).2 (by decide)⟩

/-- **C4.** A detected quadrilateral estimated wider than tall (mean of
top/bottom edge lengths exceeds mean of left/right edge lengths) is
rectified, under the default 750 × 1050 target, into an image of exactly
1050 × 750 (`cols` × `rows` swapped); one taller than wide into exactly
750 × 1050. -/
theorem extractCard_orientation_swap (corners : List Point) :
    (estCardHeight corners < estCardWidth corners →
        extractCard corners cardExtractionOptions = { rows := 750, cols := 1050 }) ∧
      (estCardWidth corners < estCardHeight corners →
        extractCard corners cardExtractionOptions = { rows := 1050, cols := 750 }) := by
  constructor
  · intro h
    unfold extractCard
    rw [if_neg (not_lt.mpr h.le)]
    rfl
  · intro h
    unfold extractCard
    rw [if_pos h]
    rfl

/-- Witness for **C4**: the axis-aligned rectangle with corners
`(0,0), (4,0), (4,2), (0,2)` is wider (4) than tall (2) and extracts to a
1050 × 750 image. -/
theorem extractCard_orientation_swap_witness :
    estCardHeight [⟨0, 0⟩, ⟨4, 0⟩, ⟨4, 2⟩, ⟨0, 2⟩] <
        estCardWidth [⟨0, 0⟩, ⟨4, 0⟩, ⟨4, 2⟩, ⟨0, 2⟩] ∧
      extractCard [⟨0, 0⟩, ⟨4, 0⟩, ⟨4, 2⟩, ⟨0, 2⟩] cardExtractionOptions =
        { rows := 750, cols := 1050 } := by
  have horder :
      orderCornersOk [⟨0, 0⟩, ⟨4, 0⟩, ⟨4, 2⟩, ⟨0, 2⟩] =
        [⟨0, 0⟩, ⟨4, 0⟩, ⟨4, 2⟩, ⟨0, 2⟩] := by
    norm_num [orderCornersOk, centroid, List.insertionSort, List.orderedInsert,
      angleLE, keyLE, angKey, angClass, angSlope, vsub, minSumIdx, minSumGo,
      List.rotate]
  have h16 : Real.sqrt 16 = 4 := by
    rw [show (16 : ℝ) = 4 ^ 2 by norm_num]
    exact Real.sqrt_sq (by norm_num)
  have h4 : Real.sqrt 4 = 2 := by
    rw [show (4 : ℝ) = 2 ^ 2 by norm_num]
    exact Real.sqrt_sq (by norm_num)
  have hlt :
      estCardHeight [⟨0, 0⟩, ⟨4, 0⟩, ⟨4, 2⟩, ⟨0, 2⟩] <
        estCardWidth [⟨0, 0⟩, ⟨4, 0⟩, ⟨4, 2⟩, ⟨0, 2⟩] := by
    unfold estCardWidth estCardHeight orderedCorner edgeLen
    rw [horder]
    norm_num [h16, h4]
  exact ⟨hlt,
    (extractCard_orientation_swap [⟨0, 0⟩, ⟨4, 0⟩, ⟨4, 2⟩, ⟨0, 2⟩]).1 hlt⟩

/-- **C6.** For a non-empty card list (and positive `cardsPerRow`, which the
claim's own `ceil(cardCount/cols)` formula presupposes) the computed layout
has `cols = min(cardsPerRow, cardCount)`, `rows = ⌈cardCount / cols⌉`,
sheet size `cols·cellW + (cols+1)·spacing` by `rows·cellH + (rows+1)·spacing`,
and row-major placement in input order with the stated cell origins; in
particular 7 cards at `cardsPerRow = 3` give a 3 × 3 grid. -/
theorem calculateLayout_grid (cards : List CompCard) (o : CompositeOptions)
    (hne : cards ≠ []) (hsp : 0 ≤ o.spacing) (hrow : 0 < o.cardsPerRow) :
    (calculateLayout cards o).cols = min o.cardsPerRow cards.length ∧
      ((calculateLayout cards o).rows : ℤ) =
        ⌈(cards.length : ℚ) / ((calculateLayout cards o).cols : ℚ)⌉ ∧
      (calculateLayout cards o).totalWidth =
        ((calculateLayout cards o).cols : ℚ) * ((cellSize cards o).1 : ℚ) +
          (((calculateLayout cards o).cols : ℚ) + 1) * o.spacing ∧
      (calculateLayout cards o).totalHeight =
        ((calculateLayout cards o).rows : ℚ) * ((cellSize cards o).2 : ℚ) +
          (((calculateLayout cards o).rows : ℚ) + 1) * o.spacing ∧
      (∀ i, i < cards.length →
        ((calculateLayout cards o).cardPositions.getD i default).cardId =
            (cards.getD i default).globalId ∧
          ((calculateLayout cards o).cardPositions.getD i default).row =
            i / (calculateLayout cards o).cols ∧
          ((calculateLayout cards o).cardPositions.getD i default).col =
            i % (calculateLayout cards o).cols ∧
          ((calculateLayout cards o).cardPositions.getD i default).x =
            o.spacing + ((i % (calculateLayout cards o).cols : ℕ) : ℚ) *
              (((cellSize cards o).1 : ℚ) + o.spacing) ∧
          ((calculateLayout cards o).cardPositions.getD i default).y =
            o.spacing + ((i / (calculateLayout cards o).cols : ℕ) : ℚ) *
              (((cellSize cards o).2 : ℚ) + o.spacing)) ∧
      (cards.length = 7 → o.cardsPerRow = 3 →
        (calculateLayout cards o).cols = 3 ∧ (calculateLayout cards o).rows = 3) := by
  have hn : 0 < cards.length := List.length_pos.mpr hne
  have hcols : (calculateLayout cards o).cols = min o.cardsPerRow cards.length := rfl
  have hrows : (calculateLayout cards o).rows =
      (⌈(cards.length : ℚ) / ((min o.cardsPerRow cards.length : ℕ) : ℚ)⌉).toNat := rfl
  have hceil : 0 ≤ ⌈(cards.length : ℚ) / ((min o.cardsPerRow cards.length : ℕ) : ℚ)⌉ :=
    Int.ceil_nonneg (by positivity)
  refine ⟨rfl, ?_, rfl, rfl, ?_, ?_⟩
  · rw [hrows, hcols, Int.toNat_of_nonneg hceil]
  · intro i hi
    have hi' : i < (calculateLayout cards o).cardPositions.length := by
      simpa [calculateLayout] using hi
    rw [List.getD_eq_getElem _ _ hi', List.getD_eq_getElem _ _ hi]
    simp only [calculateLayout, List.getElem_map, List.getElem_enum]
    exact ⟨trivial, trivial, trivial, trivial, trivial⟩
  · intro h7 h3
    constructor
    · rw [hcols, h7, h3]
      decide
    · rw [hrows, h7, h3]
      norm_num
      rw [show ⌈(7 : ℚ) / 3⌉ = 3 by rw [Int.ceil_eq_iff] <;> norm_num]
      rfl

/-- Witness for **C6**: seven 750 × 1050 cards at `cardsPerRow = 3`,
`spacing = 10`. -/
theorem calculateLayout_grid_witness :
    (([⟨"c1", ⟨1050, 750⟩⟩, ⟨"c2", ⟨1050, 750⟩⟩, ⟨"c3", ⟨1050, 750⟩⟩,
          ⟨"c4", ⟨1050, 750⟩⟩, ⟨"c5", ⟨1050, 750⟩⟩, ⟨"c6", ⟨1050, 750⟩⟩,
          ⟨"c7", ⟨1050, 750⟩⟩] : List CompCard) ≠ [] ∧
        (0 : ℚ) ≤ 10 ∧ 0 < 3) ∧
      (calculateLayout
            [⟨"c1", ⟨1050, 750⟩⟩, ⟨"c2", ⟨1050, 750⟩⟩, ⟨"c3", ⟨1050, 750⟩⟩,
              ⟨"c4", ⟨1050, 750⟩⟩, ⟨"c5", ⟨1050, 750⟩⟩, ⟨"c6", ⟨1050, 750⟩⟩,
              ⟨"c7", ⟨1050, 750⟩⟩]
            ⟨3, 10, "white", ScaleMode.fit, 300, 420⟩).cols = 3 ∧
        (calculateLayout
            [⟨"c1", ⟨1050, 750⟩⟩, ⟨"c2", ⟨1050, 750⟩⟩, ⟨"c3", ⟨1050, 750⟩⟩,
              ⟨"c4", ⟨1050, 750⟩⟩, ⟨"c5", ⟨1050, 750⟩⟩, ⟨"c6", ⟨1050, 750⟩⟩,
              ⟨"c7", ⟨1050, 750⟩⟩]
            ⟨3, 10, "white", ScaleMode.fit, 300, 420⟩).rows = 3 :=
  ⟨⟨by simp, by norm_num, by decide⟩,
    (calculateLayout_grid
        [⟨"c1", ⟨1050, 750⟩⟩, ⟨"c2", ⟨1050, 750⟩⟩, ⟨"c3", ⟨1050, 750⟩⟩,
          ⟨"c4", ⟨1050, 750⟩⟩, ⟨"c5", ⟨1050, 750⟩⟩, ⟨"c6", ⟨1050, 750⟩⟩,
          ⟨"c7", ⟨1050, 750⟩⟩]
        ⟨3, 10, "white", ScaleMode.fit, 300, 420⟩ (by simp) (by norm_num)
        (by decide)).2.2.2.2.2 rfl rfl⟩

/-- **C2.** Evaluation of `reorderCards` at a failing input.  With two
active cards and the valid move `reorderCards(0, 1)`, the claim (and the
spec, the method's own doc comment, and its drag-and-drop callers, which
re-render from `getCards(false)`) demand that the card previously at
active index 0 end up at index 1 of the active view.  The code instead
splices the *filtered copy* returned by `getCards(false)`, so `this.cards`
is never re-ordered: the active view keeps its old order and only the
`customPosition` fields of the shared card objects are rewritten with the
moved ranks. -/
theorem reorderCards_does_not_move_active_view :
    (0 < ((CardManager.init.loadFromImages
            [⟨"img", "a.png", [⟨1, 1, 1⟩, ⟨1, 1, 2⟩]⟩]).getCards false).length ∧
        1 < ((CardManager.init.loadFromImages
            [⟨"img", "a.png", [⟨1, 1, 1⟩, ⟨1, 1, 2⟩]⟩]).getCards false).length) ∧
      ((CardManager.init.loadFromImages
            [⟨"img", "a.png", [⟨1, 1, 1⟩, ⟨1, 1, 2⟩]⟩]).getCards false).map
          (fun c => c.globalId) = ["img_card_01", "img_card_02"] ∧
      (((CardManager.init.loadFromImages
              [⟨"img", "a.png", [⟨1, 1, 1⟩, ⟨1, 1, 2⟩]⟩]).reorderCards 0 1).getCards
            false).map (fun c => c.globalId) = ["img_card_01", "img_card_02"] ∧
      (((CardManager.init.loadFromImages
              [⟨"img", "a.png", [⟨1, 1, 1⟩, ⟨1, 1, 2⟩]⟩]).reorderCards 0 1).getCards
            false).map (fun c => c.customPosition) = [1, 0] := by
  decide

/-! ### Helper lemmas for the `CardManager` state machine -/

theorem mem_updateFirst {p : ManagedCard → Bool} {f : ManagedCard → ManagedCard}
    {x : ManagedCard} : ∀ {l : List ManagedCard}, x ∈ updateFirst p f l →
      x ∈ l ∨ ∃ c, l.find? p = some c ∧ x = f c := by
  intro l
  induction l with
  | nil => intro h; exact absurd h (List.not_mem_nil x)
  | cons c rest ih =>
    intro hx
    by_cases hpc : p c
    · rw [updateFirst, if_pos hpc] at hx
      rcases List.mem_cons.mp hx with h1 | h2
      · exact Or.inr ⟨c, List.find?_cons_of_pos _ hpc, h1⟩
      · exact Or.inl (List.mem_cons_of_mem _ h2)
    · rw [updateFirst, if_neg hpc] at hx
      rcases List.mem_cons.mp hx with h1 | h2
      · exact Or.inl (h1 ▸ List.mem_cons_self _ _)
      · rcases ih h2 with h3 | ⟨d, hd, hxd⟩
        · exact Or.inl (List.mem_cons_of_mem _ h3)
        · refine Or.inr ⟨d, ?_, hxd⟩
          rw [List.find?_cons_of_neg _ hpc]
          exact hd

theorem map_updateFirst {β : Type} {p : ManagedCard → Bool}
    {f : ManagedCard → ManagedCard} (g : ManagedCard → β)
    (hf : ∀ c, g (f c) = g c) : ∀ l : List ManagedCard,
      (updateFirst p f l).map g = l.map g := by
  intro l
  induction l with
  | nil => rfl
  | cons c rest ih =>
    by_cases hpc : p c
    · simp [updateFirst, hpc, hf]
    · simp [updateFirst, hpc, ih]

theorem map_mapIdx {β : Type} (g : ManagedCard → β) :
    ∀ (f : ℕ → ManagedCard → ManagedCard), (∀ j c, g (f j c) = g c) →
      ∀ l : List ManagedCard, (l.mapIdx f).map g = l.map g := by
  intro f hf l
  induction l generalizing f with
  | nil => rfl
  | cons c rest ih =>
    rw [List.mapIdx_cons]
    simp only [List.map_cons, hf]
    rw [ih _ fun j c => hf (j + 1) c]

theorem repositionByOrder_map {β : Type} (g : ManagedCard → β)
    (hg : ∀ c n, g { c with customPosition := n } = g c)
    (cards : List ManagedCard) (order : List ℕ) :
    (repositionByOrder cards order).map g = cards.map g := by
  unfold repositionByOrder
  apply map_mapIdx
  intro j c
  by_cases hj : j ∈ order
  · simp [hj, hg]
  · simp [hj]

theorem flagsOK_of_map_flags_eq {l l' : List ManagedCard}
    (h : l'.map flagsOf = l.map flagsOf) (hl : FlagsOK l) : FlagsOK l' := by
  intro c hc hsel
  have hmem : flagsOf c ∈ l'.map flagsOf := List.mem_map_of_mem _ hc
  rw [h] at hmem
  rcases List.mem_map.mp hmem with ⟨d, hd, hfd⟩
  have hsel' : d.isSelected = true := by
    have := congrArg Prod.fst hfd
    simpa [flagsOf, hsel] using this
  have hdis : d.isDiscarded = false := hl d hd hsel'
  have := congrArg Prod.snd hfd
  simpa [flagsOf, hdis] using this.symm

theorem loadedCards_flags (images : List ProcessedImage) :
    ∀ c ∈ loadedCards images, c.isSelected = false ∧ c.isDiscarded = false := by
  intro c hc
  unfold loadedCards at hc
  rcases List.mem_map.mp hc with ⟨pt, _, rfl⟩
  exact ⟨rfl, rfl⟩

theorem loadFromImages_init_eq (images : List ProcessedImage) :
    CardManager.init.loadFromImages images =
      { cards := loadedCards images, selectedIds := [], discardedIds := [],
        history := [⟨loadedCards images, [], []⟩], historyIndex := 0 } := rfl

theorem saveState_cards (m : CardManager) : m.saveState.cards = m.cards := by
  unfold CardManager.saveState
  dsimp only
  split <;> split <;> rfl

theorem mem_saveState_history {m : CardManager} {s : CardCollectionState}
    (h : s ∈ m.saveState.history) :
    s ∈ m.history ∨ s = ⟨m.cards, m.selectedIds, m.discardedIds⟩ := by
  have hsub : ∀ h0 : List CardCollectionState, h0 ⊆ m.history →
      ∀ hist : List CardCollectionState,
        (hist = h0 ++ [(⟨m.cards, m.selectedIds, m.discardedIds⟩ : CardCollectionState)] ∨
          hist = (h0 ++ [(⟨m.cards, m.selectedIds, m.discardedIds⟩ : CardCollectionState)]).tail) →
        s ∈ hist → s ∈ m.history ∨ s = ⟨m.cards, m.selectedIds, m.discardedIds⟩ := by
    intro h0 hh0 hist hh hs
    have hs' : s ∈ h0 ++ [(⟨m.cards, m.selectedIds, m.discardedIds⟩ : CardCollectionState)] := by
      rcases hh with rfl | rfl
      · exact hs
      · exact List.mem_of_mem_tail hs
    rcases List.mem_append.mp hs' with h1 | h2
    · exact Or.inl (hh0 h1)
    · exact Or.inr (List.mem_singleton.mp h2)
  unfold CardManager.saveState at h
  dsimp only at h
  rw [apply_ite CardManager.history] at h
  split at h
  all_goals dsimp only at h
  all_goals revert h
  all_goals split
  all_goals intro h
  all_goals first
    | exact hsub _ (List.take_subset _ _) _ (Or.inr rfl) h
    | exact hsub _ (fun _ hx => hx) _ (Or.inr rfl) h
    | exact hsub _ (List.take_subset _ _) _ (Or.inl rfl) h
    | exact hsub _ (fun _ hx => hx) _ (Or.inl rfl) h

theorem saveState_bounds {m : CardManager} (h0 : 0 ≤ m.historyIndex)
    (h1 : m.historyIndex < (m.history.length : ℤ)) :
    0 ≤ m.saveState.historyIndex ∧
      m.saveState.historyIndex < (m.saveState.history.length : ℤ) := by
  unfold CardManager.saveState
  dsimp only
  split
  · split
    · constructor
      · simp only []
        omega
      · simp only [List.length_tail, List.length_append, List.length_take,
          List.length_singleton]
        omega
    · simp only [List.length_append, List.length_take, List.length_singleton]
      omega
  · split
    · constructor
      · simp only []
        omega
      · simp only [List.length_tail, List.length_append, List.length_singleton]
        omega
    · simp only [List.length_append, List.length_singleton]
      omega

theorem coreStep_rfl (m : CardManager) : CoreStep m m :=
  ⟨rfl, rfl, rfl, fun h => h⟩

theorem coreStep_trans {m1 m2 m3 : CardManager} (h12 : CoreStep m1 m2)
    (h23 : CoreStep m2 m3) : CoreStep m1 m3 :=
  ⟨h23.1.trans h12.1, h23.2.1.trans h12.2.1, h23.2.2.1.trans h12.2.2.1,
    fun h => h23.2.2.2 (h12.2.2.2 h)⟩

theorem coreStep_selectOne (m : CardManager) (id : String) :
    CoreStep m (m.selectOne id) := by
  unfold CardManager.selectOne
  cases hfind : m.cards.find? (fun c => c.globalId == id) with
  | none => exact coreStep_rfl m
  | some c =>
    dsimp only
    by_cases hd : c.isDiscarded
    · rw [if_pos hd]
      exact coreStep_rfl m
    · rw [if_neg hd]
      refine ⟨rfl, rfl, ?_, ?_⟩
      · apply map_updateFirst
        intro c
        rfl
      intro hOK x hx hsel
      rcases mem_updateFirst hx with hmem | ⟨d, hd2, rfl⟩
      · exact hOK x hmem hsel
      · have hdc : d = c := Option.some.inj (hd2.symm.trans hfind)
        subst hdc
        simpa using hd

theorem coreStep_deselectOne (m : CardManager) (id : String) :
    CoreStep m (m.deselectOne id) := by
  unfold CardManager.deselectOne
  cases hfind : m.cards.find? (fun c => c.globalId == id) with
  | none => exact coreStep_rfl m
  | some c =>
    dsimp only
    refine ⟨rfl, rfl, ?_, ?_⟩
    · apply map_updateFirst
      intro c
      rfl
    intro hOK x hx hsel
    rcases mem_updateFirst hx with hmem | ⟨d, _, rfl⟩
    · exact hOK x hmem hsel
    · exact absurd hsel (by simp)

theorem coreStep_discardOne (m : CardManager) (id : String) :
    CoreStep m (m.discardOne id) := by
  unfold CardManager.discardOne
  cases hfind : m.cards.find? (fun c => c.globalId == id) with
  | none => exact coreStep_rfl m
  | some c =>
    dsimp only
    refine ⟨rfl, rfl, ?_, ?_⟩
    · apply map_updateFirst
      intro c
      rfl
    intro hOK x hx hsel
    rcases mem_updateFirst hx with hmem | ⟨d, _, rfl⟩
    · exact hOK x hmem hsel
    · exact absurd hsel (by simp)

theorem coreStep_restoreOne (m : CardManager) (id : String) :
    CoreStep m (m.restoreOne id) := by
  unfold CardManager.restoreOne
  cases hfind : m.cards.find? (fun c => c.globalId == id) with
  | none => exact coreStep_rfl m
  | some c =>
    dsimp only
    refine ⟨rfl, rfl, ?_, ?_⟩
    · apply map_updateFirst
      intro c
      rfl
    intro hOK x hx hsel
    rcases mem_updateFirst hx with hmem | ⟨d, _, rfl⟩
    · exact hOK x hmem hsel
    · rfl

theorem coreStep_foldl {step : CardManager → String → CardManager}
    (hstep : ∀ m id, CoreStep m (step m id)) :
    ∀ (ids : List String) (m : CardManager), CoreStep m (ids.foldl step m) := by
  intro ids
  induction ids with
  | nil => intro m; exact coreStep_rfl m
  | cons id rest ih =>
    intro m
    exact coreStep_trans (hstep m id) (ih (step m id))

theorem coreStep_selectAllState (m : CardManager) :
    CoreStep m
      { m with
          cards := m.cards.map fun c =>
            if c.isDiscarded then c else { c with isSelected := true }
          selectedIds := m.cards.foldl
            (fun s c => if c.isDiscarded then s else setAdd s c.globalId)
            m.selectedIds } := by
  refine ⟨rfl, rfl, ?_, ?_⟩
  · rw [List.map_map]
    apply List.map_congr_left
    intro c _
    by_cases hd : c.isDiscarded <;> simp [hd]
  · intro hOK x hx hsel
    rcases List.mem_map.mp hx with ⟨d, hd, rfl⟩
    by_cases hdis : d.isDiscarded
    · rw [if_pos hdis]
      rw [if_pos hdis] at hsel
      exact hOK d hd hsel
    · rw [if_neg hdis]
      simpa using hdis

theorem coreStep_deselectAllState (m : CardManager) :
    CoreStep m
      { m with
          cards := m.cards.map fun c => { c with isSelected := false }
          selectedIds := [] } := by
  refine ⟨rfl, rfl, ?_, ?_⟩
  · rw [List.map_map]
    exact List.map_congr_left fun c _ => rfl
  · intro hOK x hx hsel
    rcases List.mem_map.mp hx with ⟨d, hd, rfl⟩
    exact absurd hsel (by simp)

theorem coreStep_reposition (m : CardManager) (order : List ℕ) :
    CoreStep m { m with cards := repositionByOrder m.cards order } := by
  refine ⟨rfl, rfl,
    repositionByOrder_map (fun c => c.globalId) (fun c n => rfl) m.cards order, ?_⟩
  intro hOK
  exact flagsOK_of_map_flags_eq
    (repositionByOrder_map flagsOf (fun c n => rfl) m.cards order) hOK

theorem coreStep_mutOp (op : MutOp) (m : CardManager) :
    ∃ mc, applyMutOp m op = mc.saveState ∧ CoreStep m mc := by
  cases op with
  | select ids => exact ⟨_, rfl, coreStep_foldl coreStep_selectOne ids m⟩
  | deselect ids => exact ⟨_, rfl, coreStep_foldl coreStep_deselectOne ids m⟩
  | selectAllOp => exact ⟨_, rfl, coreStep_selectAllState m⟩
  | deselectAllOp => exact ⟨_, rfl, coreStep_deselectAllState m⟩
  | discard ids => exact ⟨_, rfl, coreStep_foldl coreStep_discardOne ids m⟩
  | restore ids => exact ⟨_, rfl, coreStep_foldl coreStep_restoreOne ids m⟩
  | reorder i j => exact ⟨_, rfl, coreStep_reposition m _⟩
  | sortBy c => exact ⟨_, rfl, coreStep_reposition m _⟩

theorem undo_snd_history (m : CardManager) : (m.undo).2.history = m.history := by
  unfold CardManager.undo CardManager.restoreState
  split <;> rfl

theorem redo_snd_history (m : CardManager) : (m.redo).2.history = m.history := by
  unfold CardManager.redo CardManager.restoreState
  split <;> rfl

theorem undo_snd_of_pos {m : CardManager} (h : 0 < m.historyIndex) :
    (m.undo).2.historyIndex = m.historyIndex - 1 ∧
      (m.undo).2.cards = (m.history.getD (m.historyIndex - 1).toNat default).cards := by
  unfold CardManager.undo CardManager.restoreState
  rw [if_pos h]
  exact ⟨rfl, rfl⟩

theorem undo_snd_of_nonpos {m : CardManager} (h : ¬0 < m.historyIndex) :
    (m.undo).2 = m := by
  unfold CardManager.undo
  rw [if_neg h]

theorem redo_snd_of_lt {m : CardManager}
    (h : m.historyIndex < (m.history.length : ℤ) - 1) :
    (m.redo).2.historyIndex = m.historyIndex + 1 ∧
      (m.redo).2.cards = (m.history.getD (m.historyIndex + 1).toNat default).cards := by
  unfold CardManager.redo CardManager.restoreState
  rw [if_pos h]
  exact ⟨rfl, rfl⟩

theorem redo_snd_of_ge {m : CardManager}
    (h : ¬m.historyIndex < (m.history.length : ℤ) - 1) :
    (m.redo).2 = m := by
  unfold CardManager.redo
  rw [if_neg h]

theorem getD_history_cases (hist : List CardCollectionState) (k : ℕ) :
    hist.getD k default ∈ hist ∨ hist.getD k default = default := by
  rw [List.getD_eq_getD_get?]
  cases hk : hist.get? k with
  | none => exact Or.inr rfl
  | some s => exact Or.inl (by simpa using List.get?_mem hk)

theorem getD_history_mem {hist : List CardCollectionState} {k : ℕ}
    (hk : k < hist.length) : hist.getD k default ∈ hist := by
  rw [List.getD_eq_getElem _ _ hk]
  exact List.getElem_mem hk

theorem histFlagsOK_applyUserOp {m : CardManager} (op : UserOp)
    (h : HistFlagsOK m) : HistFlagsOK (applyUserOp m op) := by
  cases op with
  | mutate op =>
    obtain ⟨mc, heq, hc⟩ := coreStep_mutOp op m
    show HistFlagsOK (applyMutOp m op)
    rw [heq]
    constructor
    · rw [saveState_cards]
      exact hc.2.2.2 h.1
    · intro s hs
      rcases mem_saveState_history hs with hmem | rfl
      · rw [hc.1] at hmem
        exact h.2 s hmem
      · exact hc.2.2.2 h.1
  | undoOp =>
    show HistFlagsOK (m.undo).2
    constructor
    · by_cases h0 : 0 < m.historyIndex
      · rw [(undo_snd_of_pos h0).2]
        rcases getD_history_cases m.history (m.historyIndex - 1).toNat with hmem | hdef
        · exact h.2 _ hmem
        · rw [hdef]
          intro c hc
          exact absurd hc (List.not_mem_nil c)
      · rw [undo_snd_of_nonpos h0]
        exact h.1
    · intro s hs
      rw [undo_snd_history] at hs
      exact h.2 s hs
  | redoOp =>
    show HistFlagsOK (m.redo).2
    constructor
    · by_cases h0 : m.historyIndex < (m.history.length : ℤ) - 1
      · rw [(redo_snd_of_lt h0).2]
        rcases getD_history_cases m.history (m.historyIndex + 1).toNat with hmem | hdef
        · exact h.2 _ hmem
        · rw [hdef]
          intro c hc
          exact absurd hc (List.not_mem_nil c)
      · rw [redo_snd_of_ge h0]
        exact h.1
    · intro s hs
      rw [redo_snd_history] at hs
      exact h.2 s hs

theorem gIdsOK_applyUserOp {L : List String} {m : CardManager} (op : UserOp)
    (h : GIdsOK L m) : GIdsOK L (applyUserOp m op) := by
  obtain ⟨hcur, hhist, hlo, hhi⟩ := h
  cases op with
  | mutate op =>
    obtain ⟨mc, heq, hc⟩ := coreStep_mutOp op m
    show GIdsOK L (applyMutOp m op)
    rw [heq]
    have hmcb : 0 ≤ mc.historyIndex ∧ mc.historyIndex < (mc.history.length : ℤ) := by
      rw [hc.1, hc.2.1]
      exact ⟨hlo, hhi⟩
    refine ⟨?_, ?_, (saveState_bounds hmcb.1 hmcb.2).1, (saveState_bounds hmcb.1 hmcb.2).2⟩
    · rw [saveState_cards]
      exact hc.2.2.1.trans hcur
    · intro s hs
      rcases mem_saveState_history hs with hmem | rfl
      · rw [hc.1] at hmem
        exact hhist s hmem
      · exact hc.2.2.1.trans hcur
  | undoOp =>
    show GIdsOK L (m.undo).2
    by_cases h0 : 0 < m.historyIndex
    · have hs := undo_snd_of_pos h0
      have hk : (m.historyIndex - 1).toNat < m.history.length := by omega
      refine ⟨?_, ?_, ?_, ?_⟩
      · rw [hs.2]
        exact hhist _ (getD_history_mem hk)
      · intro s hmem
        rw [undo_snd_history] at hmem
        exact hhist s hmem
      · omega
      · rw [undo_snd_history, hs.1]
        omega
    · rw [undo_snd_of_nonpos h0]
      exact ⟨hcur, hhist, hlo, hhi⟩
  | redoOp =>
    show GIdsOK L (m.redo).2
    by_cases h0 : m.historyIndex < (m.history.length : ℤ) - 1
    · have hs := redo_snd_of_lt h0
      have hk : (m.historyIndex + 1).toNat < m.history.length := by omega
      refine ⟨?_, ?_, ?_, ?_⟩
      · rw [hs.2]
        exact hhist _ (getD_history_mem hk)
      · intro s hmem
        rw [redo_snd_history] at hmem
        exact hhist s hmem
      · omega
      · rw [redo_snd_history, hs.1]
        omega
    · rw [redo_snd_of_ge h0]
      exact ⟨hcur, hhist, hlo, hhi⟩

theorem histFlagsOK_applyUserOps (ops : List UserOp) :
    ∀ {m : CardManager}, HistFlagsOK m → HistFlagsOK (applyUserOps m ops) := by
  induction ops with
  | nil => intro m h; exact h
  | cons op rest ih => intro m h; exact ih (histFlagsOK_applyUserOp op h)

theorem gIdsOK_applyUserOps {L : List String} (ops : List UserOp) :
    ∀ {m : CardManager}, GIdsOK L m → GIdsOK L (applyUserOps m ops) := by
  induction ops with
  | nil => intro m h; exact h
  | cons op rest ih => intro m h; exact ih (gIdsOK_applyUserOp op h)

theorem histFlagsOK_load (images : List ProcessedImage) :
    HistFlagsOK (CardManager.init.loadFromImages images) := by
  rw [loadFromImages_init_eq]
  constructor
  · intro c hc _
    exact (loadedCards_flags images c hc).2
  · intro s hs
    rw [List.mem_singleton] at hs
    subst hs
    intro c hc _
    exact (loadedCards_flags images c hc).2

theorem gIdsOK_load (images : List ProcessedImage) :
    GIdsOK ((loadedCards images).map fun c => c.globalId)
      (CardManager.init.loadFromImages images) := by
  rw [loadFromImages_init_eq]
  refine ⟨rfl, ?_, by norm_num, by norm_num⟩
  intro s hs
  rw [List.mem_singleton] at hs
  subst hs
  rfl

/-- **C10.** In every `CardManager` state reachable from a fresh load by
any sequence of select / deselect / selectAll / deselectAll / discard /
restore / reorder / sort / undo / redo operations, no card has
`isSelected = true` and `isDiscarded = true` simultaneously (discarding
clears the selection flag, selection skips discarded cards, and restoring
never re-selects). -/
theorem no_reachable_card_selected_and_discarded (images : List ProcessedImage)
    (ops : List UserOp) :
    ∀ c ∈ (applyUserOps (CardManager.init.loadFromImages images) ops).cards,
      ¬(c.isSelected = true ∧ c.isDiscarded = true) := by
  rintro c hc ⟨hsel, hdis⟩
  have h := (histFlagsOK_applyUserOps ops (histFlagsOK_load images)).1 c hc hsel
  rw [h] at hdis
  exact Bool.false_ne_true hdis

/-- Witness for **C10**: after loading one single-card image and selecting
the card, the (selected, undiscarded) card is in the collection and is not
simultaneously selected and discarded. -/
theorem no_reachable_card_selected_and_discarded_witness :
    (⟨"i_card_01", "i", "f.png", true, false, 0, 1, 1, 1⟩ : ManagedCard) ∈
        (applyUserOps
          (CardManager.init.loadFromImages [⟨"i", "f.png", [⟨1, 1, 1⟩]⟩])
          [UserOp.mutate (MutOp.select ["i_card_01"])]).cards ∧
      ¬((⟨"i_card_01", "i", "f.png", true, false, 0, 1, 1, 1⟩ :
            ManagedCard).isSelected = true ∧
          (⟨"i_card_01", "i", "f.png", true, false, 0, 1, 1, 1⟩ :
            ManagedCard).isDiscarded = true) :=
  ⟨by decide,
    no_reachable_card_selected_and_discarded [⟨"i", "f.png", [⟨1, 1, 1⟩]⟩]
      [UserOp.mutate (MutOp.select ["i_card_01"])]
      ⟨"i_card_01", "i", "f.png", true, false, 0, 1, 1, 1⟩ (by decide)⟩

/-- **C8.** `globalId`s are assigned at load time and never reassigned:
after any sequence of select / deselect / discard / restore / reorder /
sort / undo / redo operations the card list carries exactly the loaded
ids, in the loaded order; and loading two images of 3 cards each yields
the 6 pairwise-distinct ids shown, which therefore remain stable under any
such sequence. -/
theorem globalIds_assigned_once_and_stable (images : List ProcessedImage)
    (ops : List UserOp) :
    (applyUserOps (CardManager.init.loadFromImages images) ops).cards.map
        (fun c => c.globalId) =
      (CardManager.init.loadFromImages images).cards.map (fun c => c.globalId) ∧
      (CardManager.init.loadFromImages
            [⟨"img_001", "a.png", [⟨1050, 750, 1⟩, ⟨1050, 750, 2⟩, ⟨1050, 750, 3⟩]⟩,
              ⟨"img_002", "b.png",
                [⟨1050, 750, 1⟩, ⟨1050, 750, 2⟩, ⟨1050, 750, 3⟩]⟩]).cards.map
          (fun c => c.globalId) =
        ["img_001_card_01", "img_001_card_02", "img_001_card_03",
          "img_002_card_01", "img_002_card_02", "img_002_card_03"] ∧
      (["img_001_card_01", "img_001_card_02", "img_001_card_03",
          "img_002_card_01", "img_002_card_02", "img_002_card_03"] :
            List String).Nodup := by
  refine ⟨?_, by decide, by decide⟩
  have h := gIdsOK_applyUserOps ops (gIdsOK_load images)
  rw [h.1, loadFromImages_init_eq]

theorem saveState_atEnd {m : CardManager}
    (hend : m.historyIndex = (m.history.length : ℤ) - 1)
    (hlen : 1 ≤ m.history.length) (hle : m.history.length ≤ 50) :
    m.saveState.historyIndex = (m.saveState.history.length : ℤ) - 1 ∧
      m.saveState.history.length = min (m.history.length + 1) 50 := by
  unfold CardManager.saveState
  dsimp only
  have hsplice :
      (if m.historyIndex < (m.history.length : ℤ) - 1 then
          m.history.take (m.historyIndex + 1).toNat
        else m.history) = m.history := if_neg (by omega)
  rw [hsplice]
  split
  · rename_i hcap
    rw [List.length_append, List.length_singleton] at hcap
    constructor
    · dsimp only
      simp only [List.length_tail, List.length_append, List.length_singleton]
      omega
    · simp only [List.length_tail, List.length_append, List.length_singleton]
      omega
  · rename_i hcap
    rw [List.length_append, List.length_singleton] at hcap
    constructor
    · dsimp only
      simp only [List.length_append, List.length_singleton]
      omega
    · simp only [List.length_append, List.length_singleton]
      omega

theorem applyMutOp_atEnd {m : CardManager} (op : MutOp)
    (hend : m.historyIndex = (m.history.length : ℤ) - 1)
    (hlen : 1 ≤ m.history.length) (hle : m.history.length ≤ 50) :
    (applyMutOp m op).historyIndex = ((applyMutOp m op).history.length : ℤ) - 1 ∧
      (applyMutOp m op).history.length = min (m.history.length + 1) 50 := by
  obtain ⟨mc, heq, hc⟩ := coreStep_mutOp op m
  rw [heq]
  have hend' : mc.historyIndex = (mc.history.length : ℤ) - 1 := by
    rw [hc.1, hc.2.1]
    exact hend
  have h := saveState_atEnd hend' (by rw [hc.1]; exact hlen) (by rw [hc.1]; exact hle)
  rw [hc.1] at h
  exact h

theorem applyMutOps_hist : ∀ (ops : List MutOp) (m : CardManager),
    m.historyIndex = (m.history.length : ℤ) - 1 → 1 ≤ m.history.length →
      m.history.length ≤ 50 →
      (applyMutOps m ops).historyIndex =
          ((applyMutOps m ops).history.length : ℤ) - 1 ∧
        (applyMutOps m ops).history.length = min (m.history.length + ops.length) 50 := by
  intro ops
  induction ops with
  | nil =>
    intro m hend hlen hle
    refine ⟨hend, ?_⟩
    show m.history.length = min (m.history.length + ([] : List MutOp).length) 50
    simp only [List.length_nil, Nat.add_zero]
    omega
  | cons op rest ih =>
    intro m hend hlen hle
    have hstep := applyMutOp_atEnd op hend hlen hle
    have hrec := ih (applyMutOp m op) hstep.1 (by omega) (by omega)
    have hred : applyMutOps m (op :: rest) = applyMutOps (applyMutOp m op) rest := rfl
    rw [hred]
    refine ⟨hrec.1, ?_⟩
    rw [hrec.2, hstep.2]
    simp only [List.length_cons]
    omega

theorem undoCountFuel_eq : ∀ (fuel : ℕ) (m : CardManager), 0 ≤ m.historyIndex →
    m.historyIndex.toNat ≤ fuel → undoCountFuel fuel m = m.historyIndex.toNat := by
  intro fuel
  induction fuel with
  | zero =>
    intro m h0 hle
    rw [undoCountFuel]
    omega
  | succ fuel ih =>
    intro m h0 hle
    rw [undoCountFuel]
    by_cases hp : 0 < m.historyIndex
    · rw [if_pos hp]
      have hu := undo_snd_of_pos hp
      have h0' : 0 ≤ (m.undo).2.historyIndex := by rw [hu.1]; omega
      have hle' : (m.undo).2.historyIndex.toNat ≤ fuel := by rw [hu.1]; omega
      rw [ih _ h0' hle', hu.1]
      omega
    · rw [if_neg hp]
      omega

theorem undoCount_eq {m : CardManager} (h0 : 0 ≤ m.historyIndex)
    (hlt : m.historyIndex < (m.history.length : ℤ)) :
    undoCount m = m.historyIndex.toNat :=
  undoCountFuel_eq _ m h0 (by omega)

/-- **C1 (amended).** Starting from a freshly loaded `CardManager` (whose
load already saved one snapshot), 60 sequential state-mutating operations
leave the capped history at 50 snapshots with the cursor at index 49, so
`undo()` succeeds exactly **49** times before returning `false` — not 50:
the oldest retained snapshot occupies a cursor position of its own and is
not an undo step. -/
theorem sixty_mutations_leave_49_undo_steps (images : List ProcessedImage)
    (ops : List MutOp) (hlen : ops.length = 60) :
    undoCount (applyMutOps (CardManager.init.loadFromImages images) ops) = 49 := by
  have h := applyMutOps_hist ops (CardManager.init.loadFromImages images)
    (by simp [loadFromImages_init_eq])
    (by simp [loadFromImages_init_eq])
    (by simp [loadFromImages_init_eq])
  have hload : (CardManager.init.loadFromImages images).history.length = 1 := by
    simp [loadFromImages_init_eq]
  rw [hload, hlen] at h
  rw [undoCount_eq (by omega) (by omega)]
  omega

/-- Witness for **C1 (amended)**: one loaded single-card image followed by
60 `selectAll` mutations leaves exactly 49 undo steps. -/
theorem sixty_mutations_leave_49_undo_steps_witness :
    (List.replicate 60 MutOp.selectAllOp).length = 60 ∧
      undoCount
          (applyMutOps
            (CardManager.init.loadFromImages [⟨"i", "f.png", [⟨1, 1, 1⟩]⟩])
            (List.replicate 60 MutOp.selectAllOp)) = 49 :=
  ⟨by simp,
    sixty_mutations_leave_49_undo_steps [⟨"i", "f.png", [⟨1, 1, 1⟩]⟩]
      (List.replicate 60 MutOp.selectAllOp) (by simp)⟩

/-- **C1, counterexample to the claim as stated.** After a fresh load and
60 sequential mutations, the number of successful `undo()` calls is *not*
50 (it is 49): the history is capped at 50 snapshots, and with the cursor
at index 49 the guard `historyIndex > 0` stops the 50th undo. -/
theorem sixty_mutations_undo_steps_not_fifty :
    (List.replicate 60 MutOp.selectAllOp).length = 60 ∧
      undoCount
          (applyMutOps
            (CardManager.init.loadFromImages [⟨"j", "g.png", [⟨1, 1, 1⟩]⟩])
            (List.replicate 60 MutOp.selectAllOp)) ≠ 50 := by
  constructor
  · simp
  · intro hfifty
    have h := applyMutOps_hist (List.replicate 60 MutOp.selectAllOp)
      (CardManager.init.loadFromImages [⟨"j", "g.png", [⟨1, 1, 1⟩]⟩])
      (by simp [loadFromImages_init_eq])
      (by simp [loadFromImages_init_eq])
      (by simp [loadFromImages_init_eq])
    have hload : (CardManager.init.loadFromImages
        [⟨"j", "g.png", [⟨1, 1, 1⟩]⟩]).history.length = 1 := by
      simp [loadFromImages_init_eq]
    rw [hload] at h
    rw [undoCount_eq (by omega) (by omega)] at hfifty
    simp only [List.length_replicate] at h
    omega

/-! ### Helper lemmas for the corner-ordering algorithm -/

theorem minSumGo_lt : ∀ (l : List Point) (m : ℚ) (best i : ℕ), best < i →
    minSumGo l m best i < i + l.length := by
  intro l
  induction l with
  | nil =>
    intro m best i h
    rw [minSumGo]
    simpa using h
  | cons p rest ih =>
    intro m best i h
    rw [minSumGo]
    by_cases hcmp : p.x + p.y < m
    · rw [if_pos hcmp]
      have h2 := ih (p.x + p.y) i (i + 1) (Nat.lt_succ_self i)
      simp only [List.length_cons]
      omega
    · rw [if_neg hcmp]
      have h2 := ih m best (i + 1) (by omega)
      simp only [List.length_cons]
      omega

theorem minSumGo_min : ∀ (l : List Point) (m : ℚ) (best i : ℕ),
    (minSumGo l m best i = best ∧ ∀ p ∈ l, m ≤ p.x + p.y) ∨
      ∃ t, t < l.length ∧ minSumGo l m best i = i + t ∧
        (∀ p ∈ l, (l.getD t default).x + (l.getD t default).y ≤ p.x + p.y) ∧
        (l.getD t default).x + (l.getD t default).y < m := by
  intro l
  induction l with
  | nil =>
    intro m best i
    refine Or.inl ⟨rfl, ?_⟩
    intro p hp
    exact absurd hp (List.not_mem_nil p)
  | cons p rest ih =>
    intro m best i
    rw [minSumGo]
    by_cases hcmp : p.x + p.y < m
    · rw [if_pos hcmp]
      rcases ih (p.x + p.y) i (i + 1) with ⟨heq, hmin⟩ | ⟨t, ht, heq, hmin, hlt⟩
      · refine Or.inr ⟨0, by simp, by rw [heq]; omega, ?_, ?_⟩
        · rw [List.getD_cons_zero]
          intro q hq
          rcases List.mem_cons.mp hq with rfl | hq'
          · exact le_refl _
          · exact hmin q hq'
        · rw [List.getD_cons_zero]
          exact hcmp
      · refine Or.inr ⟨t + 1, by simpa using ht, by rw [heq]; omega, ?_, ?_⟩
        · rw [List.getD_cons_succ]
          intro q hq
          rcases List.mem_cons.mp hq with rfl | hq'
          · exact hlt.le
          · exact hmin q hq'
        · rw [List.getD_cons_succ]
          exact hlt.trans hcmp
    · rw [if_neg hcmp]
      push_neg at hcmp
      rcases ih m best (i + 1) with ⟨heq, hmin⟩ | ⟨t, ht, heq, hmin, hlt⟩
      · refine Or.inl ⟨heq, ?_⟩
        intro q hq
        rcases List.mem_cons.mp hq with rfl | hq'
        · exact hcmp
        · exact hmin q hq'
      · refine Or.inr ⟨t + 1, by simpa using ht, by rw [heq]; omega, ?_, ?_⟩
        · rw [List.getD_cons_succ]
          intro q hq
          rcases List.mem_cons.mp hq with rfl | hq'
          · exact (hlt.trans_le hcmp).le
          · exact hmin q hq'
        · rw [List.getD_cons_succ]
          exact hlt

theorem minSumIdx_lt {l : List Point} (h : l ≠ []) : minSumIdx l < l.length := by
  cases l with
  | nil => exact absurd rfl h
  | cons p rest =>
    rw [minSumIdx]
    have := minSumGo_lt rest (p.x + p.y) 0 1 Nat.one_pos
    simp only [List.length_cons]
    omega

theorem minSumIdx_min (l : List Point) :
    ∀ p ∈ l, (l.getD (minSumIdx l) default).x + (l.getD (minSumIdx l) default).y ≤
      p.x + p.y := by
  cases l with
  | nil =>
    intro p hp
    exact absurd hp (List.not_mem_nil p)
  | cons p rest =>
    rw [minSumIdx]
    rcases minSumGo_min rest (p.x + p.y) 0 1 with ⟨heq, hmin⟩ | ⟨t, ht, heq, hmin, hlt⟩
    · rw [heq, List.getD_cons_zero]
      intro q hq
      rcases List.mem_cons.mp hq with rfl | hq'
      · exact le_refl _
      · exact hmin q hq'
    · rw [heq, Nat.add_comm 1 t, List.getD_cons_succ]
      intro q hq
      rcases List.mem_cons.mp hq with rfl | hq'
      · exact hlt.le
      · exact hmin q hq'

theorem headI_eq_getD (l : List Point) : l.headI = l.getD 0 default := by
  cases l <;> rfl

theorem headI_rotate {l : List Point} {k : ℕ} (hk : k < l.length) :
    (l.rotate k).headI = l.getD k default := by
  have h0 : 0 < (l.rotate k).length := by
    rw [List.length_rotate]
    omega
  rw [headI_eq_getD, List.getD_eq_getElem _ _ h0, List.getElem_rotate,
    List.getD_eq_getElem _ _ hk]
  congr 1
  rw [Nat.zero_add, Nat.mod_eq_of_lt hk]

theorem keyLE_ne_lt {a b : ℕ × ℚ} (hle : keyLE a b) (hne : a ≠ b) : keyLT a b := by
  rcases hle with h | ⟨h1, h2⟩
  · exact Or.inl h
  · refine Or.inr ⟨h1, lt_of_le_of_ne h2 ?_⟩
    intro h2e
    exact hne (Prod.ext_iff.mpr ⟨h1, h2e⟩)

theorem sorted_angleLT {c : Point} {l : List Point} (hs : l.Sorted (angleLE c))
    (hd : l.Pairwise fun p q => angKey c p ≠ angKey c q) :
    l.Sorted (angleLT c) := by
  have hand := List.Pairwise.and hs hd
  exact hand.imp fun hab => keyLE_ne_lt hab.1 hab.2

theorem centroid_perm {l₁ l₂ : List Point} (h : l₁.Perm l₂) :
    centroid l₁ = centroid l₂ := by
  unfold centroid
  rw [(h.map Point.x).sum_eq, (h.map Point.y).sum_eq]

/-- **C3 (amended).** For any 4 points, `orderCorners` succeeds and returns
a permutation of its input that is *cyclically* monotone by angle around
the centroid (some rotation of it is sorted by the `atan2` order, matching
the spec's "sort by angle, then rotate the cyclic order") and whose first
point has minimal `x + y`; and when no two points share the same angle
around the centroid (pairwise-distinct `atan2` keys — mere non-collinearity
is not enough, see the counterexample), re-ordering the ordered output
returns it unchanged. -/
theorem orderCorners_spec (cs : List Point) (h4 : cs.length = 4) :
    ∃ out, orderCorners cs = Except.ok out ∧
      out.Perm cs ∧
      (∃ k, k ≤ 4 ∧ (out.rotate k).Sorted (angleLE (centroid cs))) ∧
      (∀ q ∈ cs, out.headI.x + out.headI.y ≤ q.x + q.y) ∧
      ((cs.Pairwise fun p q =>
          angKey (centroid cs) p ≠ angKey (centroid cs) q) →
        orderCorners out = Except.ok out) := by
  set c := centroid cs with hc
  set s := cs.insertionSort (angleLE c) with hs
  set k := minSumIdx s with hkdef
  have hperm_s : s.Perm cs := List.perm_insertionSort _ cs
  have hslen : s.length = 4 := by rw [hperm_s.length_eq, h4]
  have hsne : s ≠ [] := by
    intro h
    rw [h] at hslen
    exact absurd hslen (by norm_num)
  have hk4 : k < 4 := by
    rw [← hslen]
    exact minSumIdx_lt hsne
  have hsorted : s.Sorted (angleLE c) := List.sorted_insertionSort _ cs
  set out := s.rotate k with hout
  have hperm_out : out.Perm cs := (List.rotate_perm s k).trans hperm_s
  have holen : out.length = 4 := by rw [hperm_out.length_eq, h4]
  refine ⟨out, ?_, hperm_out, ?_, ?_, ?_⟩
  · unfold orderCorners
    rw [if_pos h4]
    rfl
  · refine ⟨4 - k, by omega, ?_⟩
    have hrot : out.rotate (4 - k) = s := by
      rw [hout, List.rotate_rotate, show k + (4 - k) = 4 by omega, ← hslen,
        List.rotate_length]
    rw [hrot]
    exact hsorted
  · intro q hq
    have hq' : q ∈ s := hperm_s.mem_iff.mpr hq
    have hh : out.headI = s.getD k default := headI_rotate (by omega)
    rw [hh]
    exact minSumIdx_min s q hq'
  · intro hdist
    unfold orderCorners
    rw [if_pos holen]
    have hcout : centroid out = c := centroid_perm hperm_out
    have hgoal : orderCornersOk out = out := by
      unfold orderCornersOk
      dsimp only
      rw [hcout]
      set s2 := out.insertionSort (angleLE c) with hs2
      have hperm2 : s2.Perm s := (List.perm_insertionSort _ out).trans (List.rotate_perm s k)
      have hsorted2 : s2.Sorted (angleLE c) := List.sorted_insertionSort _ out
      have hsymm : ∀ {p q : Point},
          angKey c p ≠ angKey c q → angKey c q ≠ angKey c p :=
        fun h h2 => h h2.symm
      have hds : s.Pairwise fun p q => angKey c p ≠ angKey c q :=
        (hperm_s.pairwise_iff hsymm).mpr hdist
      have hds2 : s2.Pairwise fun p q => angKey c p ≠ angKey c q :=
        (hperm2.pairwise_iff hsymm).mpr hds
      have heq : s2 = s :=
        List.eq_of_perm_of_sorted hperm2 (sorted_angleLT hsorted2 hds2)
          (sorted_angleLT hsorted hds)
      rw [heq]
    rw [hgoal]

/-- Witness for **C3 (amended)** at the axis-aligned rectangle
`(0,0), (4,0), (4,2), (0,2)`. -/
theorem orderCorners_spec_witness :
    ([⟨0, 0⟩, ⟨4, 0⟩, ⟨4, 2⟩, ⟨0, 2⟩] : List Point).length = 4 ∧
      ∃ out, orderCorners [⟨0, 0⟩, ⟨4, 0⟩, ⟨4, 2⟩, ⟨0, 2⟩] = Except.ok out ∧
        out.Perm [⟨0, 0⟩, ⟨4, 0⟩, ⟨4, 2⟩, ⟨0, 2⟩] ∧
        (∃ k, k ≤ 4 ∧
          (out.rotate k).Sorted
            (angleLE (centroid [⟨0, 0⟩, ⟨4, 0⟩, ⟨4, 2⟩, ⟨0, 2⟩]))) ∧
        (∀ q ∈ ([⟨0, 0⟩, ⟨4, 0⟩, ⟨4, 2⟩, ⟨0, 2⟩] : List Point),
          out.headI.x + out.headI.y ≤ q.x + q.y) ∧
        ((([⟨0, 0⟩, ⟨4, 0⟩, ⟨4, 2⟩, ⟨0, 2⟩] : List Point).Pairwise fun p q =>
            angKey (centroid [⟨0, 0⟩, ⟨4, 0⟩, ⟨4, 2⟩, ⟨0, 2⟩]) p ≠
              angKey (centroid [⟨0, 0⟩, ⟨4, 0⟩, ⟨4, 2⟩, ⟨0, 2⟩]) q) →
          orderCorners out = Except.ok out) :=
  ⟨rfl, orderCorners_spec [⟨0, 0⟩, ⟨4, 0⟩, ⟨4, 2⟩, ⟨0, 2⟩] rfl⟩

/-- **C3, counterexample to the claim as stated.** The four points
`(-2,-4), (3,3), (0,3), (-1,-2)` are non-collinear in the strongest sense
(no three are collinear), and the list in this order is *already ordered*
— it is the output of `orderCorners` on a permutation of itself — yet
applying the corner ordering to it does not return it unchanged.  The
corners `(-1,-2)` and `(-2,-4)` lie on one ray from the centroid `(0,0)`,
so their `atan2` angles tie; the stable sort breaks the tie by input
order, which the min-`(x+y)` rotation has swapped. -/
theorem orderCorners_not_idempotent :
    NoThreeCollinear [⟨-2, -4⟩, ⟨3, 3⟩, ⟨0, 3⟩, ⟨-1, -2⟩] ∧
      orderCornersOk [⟨-1, -2⟩, ⟨0, 3⟩, ⟨-2, -4⟩, ⟨3, 3⟩] =
        [⟨-2, -4⟩, ⟨3, 3⟩, ⟨0, 3⟩, ⟨-1, -2⟩] ∧
      orderCorners [⟨-2, -4⟩, ⟨3, 3⟩, ⟨0, 3⟩, ⟨-1, -2⟩] ≠
        Except.ok [⟨-2, -4⟩, ⟨3, 3⟩, ⟨0, 3⟩, ⟨-1, -2⟩] := by
  refine ⟨?_, ?_, ?_⟩
  · intro a ha b hb cc hcc hab hac hbc
    fin_cases ha <;> fin_cases hb <;> fin_cases hcc <;>
      simp_all [cross3, Point.mk.injEq] <;> norm_num
  · norm_num [orderCornersOk, centroid, List.insertionSort, List.orderedInsert,
      angleLE, keyLE, angKey, angClass, angSlope, vsub, minSumIdx, minSumGo,
      List.rotate]
  · intro hcontra
    have h1 : orderCornersOk [⟨-2, -4⟩, ⟨3, 3⟩, ⟨0, 3⟩, ⟨-1, -2⟩] =
        [⟨-2, -4⟩, ⟨-1, -2⟩, ⟨3, 3⟩, ⟨0, 3⟩] := by
      norm_num [orderCornersOk, centroid, List.insertionSort, List.orderedInsert,
        angleLE, keyLE, angKey, angClass, angSlope, vsub, minSumIdx, minSumGo,
        List.rotate]
    unfold orderCorners at hcontra
    rw [if_pos (show ([⟨-2, -4⟩, ⟨3, 3⟩, ⟨0, 3⟩, ⟨-1, -2⟩] :
        List Point).length = 4 by norm_num), h1] at hcontra
    norm_num [Point.mk.injEq] at hcontra

end DeckAligner
